import Mathlib

/-!
Verification of the AG_catapult live polling chat core (`AG_catapult.py`).

The development shallowly embeds the message store (`get_chat_history_since`,
`get_chat_history_all`, `insert_message_returning_id`, `clear_chat_between`),
the background poller (`ChatPoller.run`), the chat-session state
(`displayed_ids`, the poller watermark `last_id`, the `on_new` callback,
manual reload, clear, local send) and the multi-line composition loop of
`chat_session`. Machine behaviour (SQL ordering, thread loop bodies, input
exception handling) is translated directly from the source.
-/

namespace AGCatapult

/-- A row of the `messages` table: `id SERIAL`, sender, recipient, text.
Timestamps are irrelevant to every property below and are omitted. -/
structure Msg where
  id : Nat
  frm : String
  dst : String
  body : String
  deriving DecidableEq, Repr

/-- The `messages` table. `rows` is in insertion order; `nextId` is the next
SERIAL value the store will assign. Well-formedness (`DBwf`) states the SQL
SERIAL invariant: ids strictly increase in insertion order and are below
`nextId`. -/
structure DB where
  rows : List Msg
  nextId : Nat
  deriving DecidableEq, Repr

/-- SQL SERIAL invariant on the table. -/
def DBwf (db : DB) : Prop :=
  List.Pairwise (· < ·) (db.rows.map Msg.id) ∧ ∀ m ∈ db.rows, m.id < db.nextId

/-- The conversation predicate of the SQL queries:
`(from_user_id=u AND to_user_id=p) OR (from_user_id=p AND to_user_id=u)`. -/
def convBetween (u p : String) (m : Msg) : Bool :=
  (m.frm == u && m.dst == p) || (m.frm == p && m.dst == u)

/-- `get_chat_history_since` (source lines 225-243): conversation rows with
`id > since_id`, `ORDER BY id ASC` (insertion order is ascending id order
under `DBwf`). -/
def fetchSince (db : DB) (u p : String) (sinceId : Nat) : List Msg :=
  db.rows.filter (fun m => convBetween u p m && decide (sinceId < m.id))

/-- `get_chat_history_all` (source lines 245-262). -/
def fetchAll (db : DB) (u p : String) : List Msg :=
  db.rows.filter (fun m => convBetween u p m)

/-- `insert_message_returning_id` (source lines 205-223), success path:
the store assigns `nextId` to the new row. -/
def insertDB (db : DB) (u p : String) (body : String) : DB :=
  { rows := db.rows ++ [⟨db.nextId, u, p, body⟩], nextId := db.nextId + 1 }

/-- `clear_chat_between` (source lines 289-304), success path: deletes all
rows of the conversation. -/
def clearChatBetween (db : DB) (u p : String) : DB :=
  { rows := db.rows.filter (fun m => !(convBetween u p m)), nextId := db.nextId }

/-- `get_chat_history_since` including its connection handling (source lines
226-228): a failed `connect_db` (modelled as `none`) yields `[]`, exactly as
the `except` branch does. -/
def getChatHistorySince (conn : Option DB) (u p : String) (sinceId : Nat) :
    List Msg :=
  match conn with
  | none => []
  | some db => fetchSince db u p sinceId

/-! ## Session state (`chat_session`, source lines 345-444) -/

/-- In-memory state of one open chat session: the dedup set `displayed_ids`,
the log of rendered message ids in render order (one entry per actual render,
so multiplicity counts renders), and the poller watermark
`ChatPoller.last_id`. -/
structure Sess where
  displayed : List Nat
  rendered : List Nat
  pollerLast : Nat
  deriving DecidableEq, Repr

/-- The `on_new` callback (source lines 370-381): skip if already displayed,
otherwise record the id and render the message. -/
def onNewS (s : Sess) (rid : Nat) : Sess :=
  if rid ∈ s.displayed then s
  else { s with displayed := rid :: s.displayed, rendered := s.rendered ++ [rid] }

/-- The watermark update inside `ChatPoller.run` (source lines 336-337):
`if rid > self.last_id: self.last_id = rid`. -/
def pollerAdvance (s : Sess) (rid : Nat) : Sess :=
  if s.pollerLast < rid then { s with pollerLast := rid } else s

/-- One per-row step of the poller loop body (source lines 335-339): advance
the watermark, then invoke `on_new`. -/
def pollerDeliver (s : Sess) (m : Msg) : Sess :=
  onNewS (pollerAdvance s m.id) m.id

/-- Manual reload (source lines 396-402): fetch since `poller.last_id` and
feed each row to `on_new`; the watermark is NOT touched. -/
def reloadS (db : DB) (u p : String) (s : Sess) : Sess :=
  (fetchSince db u p s.pollerLast).foldl (fun st m => onNewS st m.id) s

/-- The local-send rendering (source lines 434-438): after a successful
insert returning `mid`, add `mid` to `displayed_ids` and render the message
unconditionally; the watermark is NOT touched. -/
def sendRender (s : Sess) (mid : Nat) : Sess :=
  { s with displayed := mid :: s.displayed, rendered := s.rendered ++ [mid] }

/-- The session side of a confirmed successful clear (source line 409):
`displayed_ids.clear()`; `rendered` (what is already on screen) and the
watermark are untouched. -/
def sessClear (s : Sess) : Sess := { s with displayed := [] }

/-- One whole fetch-and-process cycle of `ChatPoller.run` (source lines
333-339). -/
def pollCycle (db : DB) (u p : String) (s : Sess) : Sess :=
  (fetchSince db u p s.pollerLast).foldl pollerDeliver s

/-- Session initialisation (source lines 352-358): fetch the full history,
render every row, record every id in `displayed_ids`, and seed the watermark
with `last_id = max(last_id, rid)` starting from 0. -/
def initSess (db : DB) (u p : String) : Sess :=
  let history := fetchAll db u p
  { displayed := history.map Msg.id
  , rendered := history.map Msg.id
  , pollerLast := history.foldl (fun acc m => max acc m.id) 0 }

/-! ## Interleaved session operations

The operations that race within one session, at the granularity named by the
spec: a single poller delivery (one `on_new` invocation from
`ChatPoller.run`), a manual reload, and a local send. -/

inductive SEv where
  | deliver (m : Msg)
  | reload
  | send (body : String)
  deriving DecidableEq, Repr

/-- Effect of one session operation on the store and the session state. -/
def stepEv (u p : String) : DB × Sess → SEv → DB × Sess
  | (db, s), SEv.deliver m => (db, pollerDeliver s m)
  | (db, s), SEv.reload => (db, reloadS db u p s)
  | (db, s), SEv.send b => (insertDB db u p b, sendRender s db.nextId)

/-- Run a session from its initial state through a list of interleaved
operations. -/
def runTrace (u p : String) (db : DB) (es : List SEv) : DB × Sess :=
  es.foldl (stepEv u p) (db, initSess db u p)

/-- Trace well-formedness: the poller only ever delivers rows that exist in
the store at delivery time (`get_chat_history_since` returns table rows). -/
def wfTraceB (u p : String) : DB → List SEv → Bool
  | _, [] => true
  | db, SEv.deliver m :: es => decide (m ∈ db.rows) && wfTraceB u p db es
  | db, SEv.reload :: es => wfTraceB u p db es
  | db, SEv.send b :: es => wfTraceB u p (insertDB db u p b) es

/-! ## Poller loop structure (`ChatPoller.run`, source lines 330-342)

For the claims about the ORDER of effects inside one loop iteration, and
about the error/cancellation behaviour of the whole loop, the iteration is
embedded as the list of primitive actions it performs, and the loop as a
recursion over the per-iteration environment (stop-flag value at the top of
the iteration, and the outcome of the store call). -/

inductive PAct where
  | fetchA
  | advanceA (n : Nat)
  | callbackA (rid : Nat)
  | sleepA (q : ℚ)
  deriving DecidableEq, Repr

/-- `POLL_INTERVAL = 1.0` (source line 60), in seconds. -/
def POLL_INTERVAL : ℚ := 1

/-- Actions of the `for rid, frm, msg, created in rows` body (source lines
335-339): advance the watermark when the row id exceeds it, then invoke the
callback. -/
def rowActs : Nat → List Msg → List PAct
  | _, [] => []
  | last, m :: ms =>
      (if last < m.id then [PAct.advanceA m.id] else []) ++
        (PAct.callbackA m.id :: rowActs (max last m.id) ms)

/-- The action trace of one iteration of `ChatPoller.run` (source lines
332-340): fetch, process every returned row, then sleep. -/
def pollIterActs (db : DB) (u p : String) (last : Nat) : List PAct :=
  PAct.fetchA :: (rowActs last (fetchSince db u p last) ++ [PAct.sleepA POLL_INTERVAL])

/-- The watermark after one iteration, mirroring
`if rid > self.last_id: self.last_id = rid` per row. -/
def pollIterLast (last : Nat) (rows : List Msg) : Nat :=
  rows.foldl (fun a m => if a < m.id then m.id else a) last

/-- Extract the callback invocations from an action trace. -/
def callbackIds : List PAct → List Nat
  | [] => []
  | PAct.callbackA i :: r => i :: callbackIds r
  | PAct.fetchA :: r => callbackIds r
  | PAct.advanceA _ :: r => callbackIds r
  | PAct.sleepA _ :: r => callbackIds r

/-- Outcome of one store call made by the poller: either the row list, or a
failure (connection failure / exception raised in the loop body). -/
inductive CycleRes where
  | ok (rows : List Msg)
  | fail
  deriving DecidableEq, Repr

/-- One iteration of `ChatPoller.run` after the stop check, as (new
watermark, delivered ids). The `except` branch (source lines 341-342) makes
a failed cycle deliver nothing and leave the watermark as it was. -/
def pollStepP (last : Nat) (r : CycleRes) : Nat × List Nat :=
  match r with
  | CycleRes.fail => (last, [])
  | CycleRes.ok rows =>
      (pollIterLast last rows, rows.map Msg.id)

/-- The whole `while not self.stop_event.is_set():` loop over a finite
environment schedule. Each schedule entry gives the stop-flag value observed
at the top of the iteration and the outcome of that iteration's store call.
Returns (final watermark, all delivered ids, whether the loop exited by
observing the stop flag within the schedule). -/
def pollRun : Nat → List (Bool × CycleRes) → Nat × List Nat × Bool
  | last, [] => (last, [], false)
  | last, (stop, r) :: rest =>
      if stop then (last, [], true)
      else
        let s := pollStepP last r
        let t := pollRun s.1 rest
        (t.1, s.2 ++ t.2.1, t.2.2)

/-! ## Composition reader (`chat_session` inner loop, source lines 388-428)

Raw input results: a line, or the `KeyboardInterrupt`/`EOFError` raised by
`input()` (source lines 392-395), which the source converts to the line
`"="`. When the input list is exhausted, a real execution sees `EOFError`
from every further `input()` call: with no accumulated lines that is the
quit path; with accumulated lines the loop appends `"="` and calls `input()`
again forever, which the embedding records as the explicit outcome
`divergesO` (the accumulated lines at that point are never submitted and the
loop never exits). -/

/-- Python `str.strip()`: remove leading and trailing whitespace. (Stated on
the character list so that it evaluates by kernel reduction.) -/
def pyStrip (s : String) : String :=
  String.mk (((s.toList.dropWhile Char.isWhitespace).reverse.dropWhile
    Char.isWhitespace).reverse)

/-- Python `str.lower()` (the command tokens are ASCII). -/
def pyLower (s : String) : String :=
  String.mk (s.toList.map Char.toLower)

inductive InRes where
  | line (s : String)
  | intr
  deriving DecidableEq, Repr

/-- The line the composition loop sees for an input result: the `except`
handler of source lines 392-395 converts `KeyboardInterrupt`/`EOFError` into
the line `"="`. -/
def lineOf : InRes → String
  | InRes.line s => s
  | InRes.intr => "="

inductive Outcome where
  | quitO
  | clearOut (confirmed : Bool)
  | msgO (body : String)
  | restartO
  | abortO
  | divergesO (acc : List String)
  deriving DecidableEq, Repr

/-- What happens after the double-blank break (source lines 424-427):
`if not lines: continue`, then `message_text = "\n".join(lines).strip()`,
then `if not message_text: continue`, else submit `message_text`. -/
def finalizeEntry (acc : List String) : Outcome :=
  if acc = [] then Outcome.restartO
  else
    let t := pyStrip (String.intercalate "\n" acc)
    if t = "" then Outcome.restartO else Outcome.msgO t

/-- The clear-command branch (source lines 403-413): a further `input()` for
the confirmation, NOT wrapped in the `try` that guards the composition
`input()`, so interrupts/end-of-stream there propagate out of the session
(`abortO`). On a line, clear it is confirmed exactly when the line strips
and lowercases to `"y"`; either way `lines = []` and the inner loop breaks,
so composition restarts. -/
def clearBranch (rest : List InRes) : Nat × List InRes × Outcome :=
  match rest with
  | [] => (0, [], Outcome.abortO)
  | InRes.intr :: rest' => (0, rest', Outcome.abortO)
  | InRes.line c :: rest' => (0, rest', Outcome.clearOut (pyLower (pyStrip c) = "y"))

/-- One entry of the composition loop (source lines 390-428): returns the
number of manual reloads performed, the unconsumed input, and the outcome of
the entry. Translated branch by branch:
line 396 `line.strip().lower() == "r" and not lines` (reload, continue);
line 403 `line.strip().lower() == "c" and not lines` (clear, break);
line 414 `line.strip() == "=" and not lines` (quit, return);
lines 419-422 double-blank termination (pop the trailing blank, break);
line 423 append the line and continue. -/
def readEntry : List InRes → List String → Nat × List InRes × Outcome
  | [], acc =>
      if acc = [] then (0, [], Outcome.quitO)
      else (0, [], Outcome.divergesO acc)
  | r :: rest, acc =>
      let line := lineOf r
      if pyLower (pyStrip line) = "r" ∧ acc = [] then
        let t := readEntry rest acc
        (t.1 + 1, t.2.1, t.2.2)
      else if pyLower (pyStrip line) = "c" ∧ acc = [] then
        clearBranch rest
      else if pyStrip line = "=" ∧ acc = [] then
        (0, rest, Outcome.quitO)
      else if line = "" ∧ acc ≠ [] ∧ acc.getLast? = some "" then
        (0, rest, finalizeEntry acc.dropLast)
      else
        readEntry rest (acc ++ [line])

/-- The submitted message bodies of a whole session run (outer `while True`
of source lines 388-438), driven by fuel (each entry consumes input; the
concrete claims use enough fuel for their input). Quit, abort and
divergence end the session; restart and clear loop back with the remaining
input. -/
def sessionSubmitted : Nat → List InRes → List String
  | 0, _ => []
  | n + 1, inputs =>
      let t := readEntry inputs []
      match t.2.2 with
      | Outcome.msgO b => b :: sessionSubmitted n t.2.1
      | Outcome.quitO => []
      | Outcome.abortO => []
      | Outcome.divergesO _ => []
      | Outcome.restartO => sessionSubmitted n t.2.1
      | Outcome.clearOut _ => sessionSubmitted n t.2.1

/-! ## Composition-reader lemmas -/

/-- Result of the reload branch relative to the rest of the entry: one more
manual reload, everything else as if the line had not been typed. -/
def bumpReload (q : Nat × List InRes × Outcome) : Nat × List InRes × Outcome :=
  (q.1 + 1, q.2)

theorem readEntry_reload (t : String) (rest : List InRes) (acc : List String)
    (h : pyLower (pyStrip t) = "r") (ha : acc = []) :
    readEntry (InRes.line t :: rest) acc = bumpReload (readEntry rest []) := by
  subst ha
  simp [readEntry, lineOf, h, bumpReload]

theorem readEntry_clear (t : String) (rest : List InRes) (acc : List String)
    (h : pyLower (pyStrip t) = "c") (ha : acc = []) :
    readEntry (InRes.line t :: rest) acc = clearBranch rest := by
  subst ha
  simp [readEntry, lineOf, h]

theorem readEntry_quit (t : String) (rest : List InRes) (acc : List String)
    (h : pyStrip t = "=") (ha : acc = []) :
    readEntry (InRes.line t :: rest) acc = (0, rest, Outcome.quitO) := by
  subst ha
  have h2 : pyLower "=" = "=" := by decide
  simp [readEntry, lineOf, h, h2]

theorem readEntry_append (t : String) (rest : List InRes) (acc : List String)
    (ht : t ≠ "") (ha : acc ≠ []) :
    readEntry (InRes.line t :: rest) acc = readEntry rest (acc ++ [t]) := by
  simp [readEntry, lineOf, ha, ht]

theorem readEntry_msgO (inputs : List InRes) :
    ∀ (acc : List String) (n : Nat) (rest : List InRes) (b : String),
      readEntry inputs acc = (n, rest, Outcome.msgO b) →
      ∃ ls, ls ≠ [] ∧ b = pyStrip (String.intercalate "\n" ls) ∧ b ≠ "" := by
  induction inputs with
  | nil =>
      intro acc n rest b h
      by_cases ha : acc = [] <;> simp [readEntry, ha] at h
  | cons r rs ih =>
      intro acc n rest b h
      simp only [readEntry] at h
      by_cases h1 : pyLower (pyStrip (lineOf r)) = "r" ∧ acc = []
      · rw [if_pos h1] at h
        rcases hre : readEntry rs acc with ⟨n', rest', o⟩
        rw [hre] at h
        simp only [Prod.mk.injEq] at h
        obtain ⟨-, -, ho⟩ := h
        exact ih acc n' rest' b (by rw [hre, ho])
      · rw [if_neg h1] at h
        by_cases h2 : pyLower (pyStrip (lineOf r)) = "c" ∧ acc = []
        · rw [if_pos h2] at h
          rcases rs with - | ⟨r', rs'⟩
          · simp [clearBranch] at h
          · cases r' <;> simp [clearBranch] at h
        · rw [if_neg h2] at h
          by_cases h3 : pyStrip (lineOf r) = "=" ∧ acc = []
          · rw [if_pos h3] at h
            simp at h
          · rw [if_neg h3] at h
            by_cases h4 : lineOf r = "" ∧ acc ≠ [] ∧ acc.getLast? = some ""
            · rw [if_pos h4] at h
              simp only [Prod.mk.injEq] at h
              obtain ⟨-, -, ho⟩ := h
              unfold finalizeEntry at ho
              by_cases hd : acc.dropLast = []
              · rw [if_pos hd] at ho; simp at ho
              · rw [if_neg hd] at ho
                simp only [] at ho
                by_cases he : pyStrip (String.intercalate "\n" acc.dropLast) = ""
                · rw [if_pos he] at ho; simp at ho
                · rw [if_neg he] at ho
                  simp only [Outcome.msgO.injEq] at ho
                  exact ⟨acc.dropLast, hd, ho.symm, fun hb => he (ho.trans hb)⟩
            · rw [if_neg h4] at h
              exact ih _ n rest b h

/-- The three command tokens of the session: reload `r`, clear `c`, quit
`=` (source lines 396, 403, 414). -/
inductive Tok where
  | reloadT
  | clearT
  | quitT
  deriving DecidableEq, Repr

/-- Recognition of a command token exactly as the source tests it: `r` and
`c` after strip+lower, `=` after strip. -/
def tokenClass (t : String) : Option Tok :=
  if pyLower (pyStrip t) = "r" then some Tok.reloadT
  else if pyLower (pyStrip t) = "c" then some Tok.clearT
  else if pyStrip t = "=" then some Tok.quitT
  else none

/-- Modelled from the spec: the claimed handling of a line that is a
recognized command token — executed as that command when no lines have been
accumulated (Empty state), appended verbatim to the composition otherwise
(and then not executed). Compared against `readEntry` below. -/
def cmdTokenBehavior (k : Tok) (t : String) (rest : List InRes)
    (acc : List String) : Nat × List InRes × Outcome :=
  if acc = [] then
    match k with
    | Tok.reloadT => bumpReload (readEntry rest [])
    | Tok.clearT => clearBranch rest
    | Tok.quitT => (0, rest, Outcome.quitO)
  else readEntry rest (acc ++ [t])

theorem tokenClass_ne_empty (t : String) (k : Tok) (h : tokenClass t = some k) :
    t ≠ "" := by
  intro hrfl
  rw [hrfl, show tokenClass "" = none from by decide] at h
  exact Option.noConfusion h

/-- C6: an input line equal to a recognized command token (`r`, `c`, `=`)
is treated as that command if and only if no lines have yet been
accumulated: in Empty state it triggers the command and is never added to
the message body, while after composition has begun the very same token is
appended verbatim and not executed. -/
theorem command_token_iff_empty_entry (t : String) (rest : List InRes)
    (acc : List String) (k : Tok) (h : tokenClass t = some k) :
    readEntry (InRes.line t :: rest) acc = cmdTokenBehavior k t rest acc := by
  have hne : t ≠ "" := tokenClass_ne_empty t k h
  unfold tokenClass at h
  split_ifs at h with h1 h2 h3
  · injection h with hk; subst hk
    by_cases hacc : acc = []
    · rw [readEntry_reload t rest acc h1 hacc]
      simp [cmdTokenBehavior, hacc]
    · rw [readEntry_append t rest acc hne hacc]
      simp [cmdTokenBehavior, hacc]
  · injection h with hk; subst hk
    by_cases hacc : acc = []
    · rw [readEntry_clear t rest acc h2 hacc]
      simp [cmdTokenBehavior, hacc]
    · rw [readEntry_append t rest acc hne hacc]
      simp [cmdTokenBehavior, hacc]
  · injection h with hk; subst hk
    by_cases hacc : acc = []
    · rw [readEntry_quit t rest acc h3 hacc]
      simp [cmdTokenBehavior, hacc]
    · rw [readEntry_append t rest acc hne hacc]
      simp [cmdTokenBehavior, hacc]

theorem command_token_iff_empty_entry_witness :
    tokenClass "r" = some Tok.reloadT ∧
    readEntry [InRes.line "r", InRes.line "x", InRes.line "", InRes.line ""]
        ["y"] = cmdTokenBehavior Tok.reloadT "r"
        [InRes.line "x", InRes.line "", InRes.line ""] ["y"] :=
  ⟨by decide,
   command_token_iff_empty_entry "r" [InRes.line "x", InRes.line "", InRes.line ""]
     ["y"] Tok.reloadT (by decide)⟩

/-- C10: in Empty state the reload and clear commands are recognized
case-insensitively after stripping surrounding whitespace (so `" R "` and
`"C"` trigger them), the quit token `"="` after stripping only; every such
line is executed as the command (the equations' right-hand sides never
consult the line again, so it cannot become message content). -/
theorem command_recognition_trim_case (t : String) (rest : List InRes)
    (k : Tok) (h : tokenClass t = some k) :
    (readEntry (InRes.line t :: rest) [] =
      match k with
      | Tok.reloadT => bumpReload (readEntry rest [])
      | Tok.clearT => clearBranch rest
      | Tok.quitT => (0, rest, Outcome.quitO)) ∧
    tokenClass " R " = some Tok.reloadT ∧
    tokenClass "C" = some Tok.clearT ∧
    tokenClass " = " = some Tok.quitT ∧
    tokenClass " r " = some Tok.reloadT ∧
    tokenClass " c " = some Tok.clearT := by
  refine ⟨?_, by decide, by decide, by decide, by decide, by decide⟩
  unfold tokenClass at h
  split_ifs at h with h1 h2 h3
  · injection h with hk; subst hk
    exact readEntry_reload t rest [] h1 rfl
  · injection h with hk; subst hk
    exact readEntry_clear t rest [] h2 rfl
  · injection h with hk; subst hk
    exact readEntry_quit t rest [] h3 rfl

theorem command_recognition_trim_case_witness :
    tokenClass " R " = some Tok.reloadT ∧
    readEntry [InRes.line " R "] [] = bumpReload (readEntry [] []) :=
  ⟨by decide, (command_recognition_trim_case " R " [] Tok.reloadT (by decide)).1⟩

/-- C5: the composition loop submits one message `"hello"` for the input
lines `["hello", "", ""]`, one message `"hello\n\nworld"` for
`["hello", "", "world", "", ""]`; in general a submitted body is the
newline-join of the accumulated lines with surrounding whitespace stripped
and is nonempty, and an all-whitespace composition is discarded
(restarting composition) rather than sent. -/
theorem composition_submissions (inputs : List InRes) (acc : List String)
    (n : Nat) (rest : List InRes) (b : String)
    (h : readEntry inputs acc = (n, rest, Outcome.msgO b)) :
    sessionSubmitted 4 [InRes.line "hello", InRes.line "", InRes.line ""] =
      ["hello"] ∧
    sessionSubmitted 6 [InRes.line "hello", InRes.line "", InRes.line "world",
      InRes.line "", InRes.line ""] = ["hello\n\nworld"] ∧
    readEntry [InRes.line "   ", InRes.line "", InRes.line ""] [] =
      (0, [], Outcome.restartO) ∧
    ∃ ls, ls ≠ [] ∧ b = pyStrip (String.intercalate "\n" ls) ∧ b ≠ "" :=
  ⟨by decide, by decide, by decide, readEntry_msgO inputs acc n rest b h⟩

theorem composition_submissions_witness :
    readEntry [InRes.line "hello", InRes.line "", InRes.line ""] [] =
      (0, [], Outcome.msgO "hello") ∧
    ∃ ls, ls ≠ [] ∧ "hello" = pyStrip (String.intercalate "\n" ls) ∧
      "hello" ≠ "" :=
  ⟨by decide,
   (composition_submissions [InRes.line "hello", InRes.line "", InRes.line ""]
     [] 0 [] "hello" (by decide)).2.2.2⟩

/-- C3 (code bug): with at least one line already accumulated, an
interrupt/end-of-input during `input()` is NOT treated as the quit command:
the handler substitutes the line `"="`, but the quit test requires an empty
accumulator, so `"="` is appended to the composition and reading continues
(with input exhausted the loop appends `"="` forever — `divergesO`; if the
user instead continues and terminates the entry, the partial composition is
submitted with the `"="` embedded). Only with no accumulated lines does the
interrupt quit. -/
theorem eof_mid_composition_is_not_quit :
    readEntry [InRes.line "hello", InRes.intr] [] =
      (0, [], Outcome.divergesO ["hello", "="]) ∧
    readEntry [InRes.line "hello", InRes.intr] [] ≠
      (0, [], Outcome.quitO) ∧
    readEntry [InRes.line "hello", InRes.intr, InRes.line "", InRes.line ""]
      [] = (0, [], Outcome.msgO "hello\n=") ∧
    readEntry [InRes.intr] [] = (0, [], Outcome.quitO) := by
  refine ⟨by decide, by decide, by decide, by decide⟩

/-! ## Poller iteration and loop claims -/

theorem callbackIds_append (l1 l2 : List PAct) :
    callbackIds (l1 ++ l2) = callbackIds l1 ++ callbackIds l2 := by
  induction l1 with
  | nil => rfl
  | cons a l ih => cases a <;> simp [callbackIds, ih]

theorem callbackIds_rowActs (rows : List Msg) :
    ∀ last, callbackIds (rowActs last rows) = rows.map Msg.id := by
  induction rows with
  | nil => intro last; rfl
  | cons m ms ih =>
      intro last
      rw [rowActs, callbackIds_append]
      by_cases hlt : last < m.id <;>
        simp [hlt, callbackIds, ih]

theorem pollIterLast_eq_foldl_max (rows : List Msg) :
    ∀ last, pollIterLast last rows =
      rows.foldl (fun a m => max a m.id) last := by
  induction rows with
  | nil => intro last; rfl
  | cons m ms ih =>
      intro last
      have hstep : (if last < m.id then m.id else last) = max last m.id := by
        split <;> omega
      simp only [pollIterLast, List.foldl_cons] at *
      rw [hstep]
      exact ih (max last m.id)

theorem fetchSince_map_id_pairwise (db : DB) (u p : String) (last : Nat)
    (h : DBwf db) :
    List.Pairwise (· < ·) ((fetchSince db u p last).map Msg.id) := by
  have hsub : List.Sublist (fetchSince db u p last) db.rows :=
    List.filter_sublist _
  exact List.Pairwise.sublist (List.Sublist.map Msg.id hsub) h.1

theorem fetchSince_mem_gt (db : DB) (u p : String) (last : Nat) (m : Msg)
    (h : m ∈ fetchSince db u p last) : last < m.id := by
  simp [fetchSince, List.mem_filter] at h
  exact h.2.2

theorem pollIterActs_getLast (db : DB) (u p : String) (last : Nat) :
    (pollIterActs db u p last).getLast? = some (PAct.sleepA POLL_INTERVAL) := by
  show ((PAct.fetchA :: rowActs last (fetchSince db u p last)) ++
    [PAct.sleepA POLL_INTERVAL]).getLast? = _
  exact List.getLast?_concat _

/-- C4 (counterexample): the claim says each iteration of `ChatPoller.run`
FIRST sleeps and THEN fetches; on a concrete store the first action of the
iteration is the fetch, not the sleep. -/
theorem poll_iteration_sleep_not_first_cex :
    (pollIterActs ⟨[⟨1, "a", "b", "hi"⟩], 2⟩ "a" "b" 0).head? =
      some PAct.fetchA ∧
    (pollIterActs ⟨[⟨1, "a", "b", "hi"⟩], 2⟩ "a" "b" 0).head? ≠
      some (PAct.sleepA POLL_INTERVAL) := by
  refine ⟨rfl, ?_⟩
  intro h
  simp [pollIterActs] at h

/-- C4 (amended): each iteration of the `ChatPoller` loop body FIRST calls
`get_chat_history_since(user, partner, last_id)`, then for each returned
message in ascending id order advances `last_id` to `max(last_id, id)` and
invokes the delivery callback with that message, and sleeps for the fixed
poll interval (default 1 second) at the END of the iteration. -/
theorem poll_iteration_fetch_then_process_then_sleep (db : DB) (u p : String)
    (last : Nat) (h : DBwf db) :
    (pollIterActs db u p last).head? = some PAct.fetchA ∧
    (pollIterActs db u p last).getLast? = some (PAct.sleepA POLL_INTERVAL) ∧
    POLL_INTERVAL = 1 ∧
    callbackIds (pollIterActs db u p last) =
      (fetchSince db u p last).map Msg.id ∧
    List.Pairwise (· < ·) ((fetchSince db u p last).map Msg.id) ∧
    (∀ i ∈ (fetchSince db u p last).map Msg.id, last < i) ∧
    pollIterLast last (fetchSince db u p last) =
      (fetchSince db u p last).foldl (fun a m => max a m.id) last := by
  refine ⟨rfl, pollIterActs_getLast db u p last, rfl, ?_,
    fetchSince_map_id_pairwise db u p last h, ?_,
    pollIterLast_eq_foldl_max _ last⟩
  · show callbackIds (PAct.fetchA :: (rowActs last (fetchSince db u p last) ++
      [PAct.sleepA POLL_INTERVAL])) = _
    rw [show callbackIds (PAct.fetchA :: (rowActs last
      (fetchSince db u p last) ++ [PAct.sleepA POLL_INTERVAL])) =
      callbackIds (rowActs last (fetchSince db u p last) ++
      [PAct.sleepA POLL_INTERVAL]) from rfl,
      callbackIds_append, callbackIds_rowActs]
    simp [callbackIds]
  · intro i hi
    rcases List.mem_map.mp hi with ⟨m, hm, rfl⟩
    exact fetchSince_mem_gt db u p last m hm

theorem poll_iteration_fetch_then_process_then_sleep_witness :
    DBwf ⟨[⟨1, "a", "b", "hi"⟩], 2⟩ ∧
    callbackIds (pollIterActs ⟨[⟨1, "a", "b", "hi"⟩], 2⟩ "a" "b" 0) =
      (fetchSince ⟨[⟨1, "a", "b", "hi"⟩], 2⟩ "a" "b" 0).map Msg.id := by
  have hwf : DBwf ⟨[⟨1, "a", "b", "hi"⟩], 2⟩ := by
    constructor
    · simp
    · intro m hm; simp at hm; subst hm; decide
  exact ⟨hwf,
    (poll_iteration_fetch_then_process_then_sleep _ "a" "b" 0 hwf).2.2.2.1⟩

/-- C9: a store-layer failure during a poll cycle (connection failure makes
`get_chat_history_since` return `[]`; any exception in the loop body lands
in the `except` branch) leaves the poller state unchanged, delivers
nothing, and the loop proceeds to the next iteration; the run loop
terminates exactly when the stop event is observed set at the top of an
iteration, never because of a fetch failure. -/
theorem poller_absorbs_failures_stops_only_on_cancel :
    (∀ last, pollStepP last CycleRes.fail = (last, [])) ∧
    (∀ u p k, getChatHistorySince none u p k = []) ∧
    (∀ last rest, pollRun last ((false, CycleRes.fail) :: rest) =
      pollRun last rest) ∧
    (∀ last sched, (pollRun last sched).2.2 = true ↔
      ∃ e ∈ sched, e.1 = true) := by
  refine ⟨fun _ => rfl, fun _ _ _ => rfl, ?_, ?_⟩
  · intro last rest
    simp [pollRun, pollStepP]
  · intro last sched
    induction sched generalizing last with
    | nil => simp [pollRun]
    | cons e rest ih =>
        rcases e with ⟨stop, r⟩
        by_cases hs : stop
        · subst hs; simp [pollRun]
        · have hs' : stop = false := by simpa using hs
          subst hs'
          simp [pollRun, ih]

/-! ## Session watermark and dedup lemmas -/



theorem onNewS_pollerLast (s : Sess) (i : Nat) :
    (onNewS s i).pollerLast = s.pollerLast := by
  unfold onNewS; split <;> rfl

theorem pollerAdvance_pollerLast (s : Sess) (i : Nat) :
    (pollerAdvance s i).pollerLast = max s.pollerLast i := by
  unfold pollerAdvance; split <;> simp <;> omega

theorem pollerDeliver_pollerLast (s : Sess) (m : Msg) :
    (pollerDeliver s m).pollerLast = max s.pollerLast m.id := by
  unfold pollerDeliver
  rw [onNewS_pollerLast, pollerAdvance_pollerLast]

theorem foldl_onNew_pollerLast (rows : List Msg) :
    ∀ s : Sess, (rows.foldl (fun st m => onNewS st m.id) s).pollerLast =
      s.pollerLast := by
  induction rows with
  | nil => intro s; rfl
  | cons m ms ih =>
      intro s
      rw [List.foldl_cons, ih, onNewS_pollerLast]

theorem reloadS_pollerLast (db : DB) (u p : String) (s : Sess) :
    (reloadS db u p s).pollerLast = s.pollerLast :=
  foldl_onNew_pollerLast _ s

theorem onNewS_displayed_mono (s : Sess) (i j : Nat) (h : j ∈ s.displayed) :
    j ∈ (onNewS s i).displayed := by
  unfold onNewS; split
  · exact h
  · exact List.mem_cons_of_mem _ h

theorem onNewS_mem_displayed (s : Sess) (i : Nat) :
    i ∈ (onNewS s i).displayed := by
  unfold onNewS; split
  · assumption
  · exact List.mem_cons_self _ _

theorem onNewS_of_mem (s : Sess) (i : Nat) (h : i ∈ s.displayed) :
    onNewS s i = s := by
  unfold onNewS; rw [if_pos h]

theorem foldl_onNew_displayed_mono (rows : List Msg) :
    ∀ (s : Sess) (j : Nat), j ∈ s.displayed →
      j ∈ (rows.foldl (fun st m => onNewS st m.id) s).displayed := by
  induction rows with
  | nil => intro s j h; exact h
  | cons m ms ih =>
      intro s j h
      rw [List.foldl_cons]
      exact ih _ j (onNewS_displayed_mono s m.id j h)

theorem foldl_onNew_mem (rows : List Msg) :
    ∀ (s : Sess) (m : Msg), m ∈ rows →
      m.id ∈ (rows.foldl (fun st m => onNewS st m.id) s).displayed := by
  induction rows with
  | nil => intro s m h; cases h
  | cons m0 ms ih =>
      intro s m h
      rw [List.foldl_cons]
      rcases List.mem_cons.mp h with rfl | h'
      · exact foldl_onNew_displayed_mono ms _ m.id (onNewS_mem_displayed s m.id)
      · exact ih _ m h'

theorem foldl_onNew_fixed (rows : List Msg) :
    ∀ s : Sess, (∀ m ∈ rows, m.id ∈ s.displayed) →
      rows.foldl (fun st m => onNewS st m.id) s = s := by
  induction rows with
  | nil => intro s _; rfl
  | cons m ms ih =>
      intro s h
      rw [List.foldl_cons, onNewS_of_mem s m.id (h m (List.mem_cons_self _ _))]
      exact ih s (fun m' hm' => h m' (List.mem_cons_of_mem _ hm'))

/-- C7: a manual reload immediately followed by another manual reload, with
no intervening writes to the store, renders nothing further: every row the
second `get_chat_history_since` call returns is already in `displayed_ids`,
so the second reload leaves the whole session state unchanged. -/
theorem manual_reload_idempotent (db : DB) (u p : String) (s : Sess) :
    reloadS db u p (reloadS db u p s) = reloadS db u p s ∧
    ∀ m ∈ fetchSince db u p (reloadS db u p s).pollerLast,
      m.id ∈ (reloadS db u p s).displayed := by
  have hl := reloadS_pollerLast db u p s
  have hmem : ∀ m ∈ fetchSince db u p s.pollerLast,
      m.id ∈ (reloadS db u p s).displayed :=
    fun m hm => foldl_onNew_mem _ s m hm
  constructor
  · show (fetchSince db u p (reloadS db u p s).pollerLast).foldl
      (fun st m => onNewS st m.id) (reloadS db u p s) = reloadS db u p s
    rw [hl]
    exact foldl_onNew_fixed _ _ hmem
  · rw [hl]
    exact hmem



theorem sendRender_pollerLast (s : Sess) (mid : Nat) :
    (sendRender s mid).pollerLast = s.pollerLast := rfl

theorem sessClear_pollerLast (s : Sess) :
    (sessClear s).pollerLast = s.pollerLast := rfl

theorem stepEv_pollerLast_mono (u p : String) (st : DB × Sess) (e : SEv) :
    st.2.pollerLast ≤ (stepEv u p st e).2.pollerLast := by
  rcases st with ⟨db, s⟩
  show s.pollerLast ≤ (stepEv u p (db, s) e).2.pollerLast
  cases e with
  | deliver m =>
      rw [show (stepEv u p (db, s) (SEv.deliver m)).2 = pollerDeliver s m
        from rfl, pollerDeliver_pollerLast]
      omega
  | reload =>
      rw [show (stepEv u p (db, s) SEv.reload).2 = reloadS db u p s from rfl,
        reloadS_pollerLast]
  | send b =>
      rw [show (stepEv u p (db, s) (SEv.send b)).2 = sendRender s db.nextId
        from rfl, sendRender_pollerLast]

theorem foldl_stepEv_pollerLast_mono (u p : String) (es : List SEv) :
    ∀ st : DB × Sess,
      st.2.pollerLast ≤ (es.foldl (stepEv u p) st).2.pollerLast := by
  induction es with
  | nil => intro st; exact Nat.le_refl _
  | cons e es ih =>
      intro st
      rw [List.foldl_cons]
      exact Nat.le_trans (stepEv_pollerLast_mono u p st e) (ih _)

theorem foldl_stepEv_deliver_le (u p : String) (es : List SEv) :
    ∀ (st : DB × Sess) (m : Msg), SEv.deliver m ∈ es →
      m.id ≤ (es.foldl (stepEv u p) st).2.pollerLast := by
  induction es with
  | nil => intro st m h; cases h
  | cons e es ih =>
      intro st m h
      rw [List.foldl_cons]
      rcases List.mem_cons.mp h with he | h'
      · subst he
        refine Nat.le_trans ?_ (foldl_stepEv_pollerLast_mono u p es _)
        rcases st with ⟨db, s⟩
        rw [show (stepEv u p (db, s) (SEv.deliver m)).2 = pollerDeliver s m
          from rfl, pollerDeliver_pollerLast]
        omega
      · exact ih _ m h'

theorem le_foldl_max_init (l : List Msg) :
    ∀ a : Nat, a ≤ l.foldl (fun acc m => max acc m.id) a := by
  induction l with
  | nil => intro a; exact Nat.le_refl _
  | cons m ms ih =>
      intro a
      rw [List.foldl_cons]
      exact Nat.le_trans (Nat.le_max_left a m.id) (ih _)

theorem mem_le_foldl_max (l : List Msg) :
    ∀ (a : Nat) (m : Msg), m ∈ l →
      m.id ≤ l.foldl (fun acc m => max acc m.id) a := by
  induction l with
  | nil => intro a m h; cases h
  | cons m0 ms ih =>
      intro a m h
      rw [List.foldl_cons]
      rcases List.mem_cons.mp h with rfl | h'
      · exact Nat.le_trans (Nat.le_max_right a m.id) (le_foldl_max_init ms _)
      · exact ih _ m h'

/-- C2 (counterexample): with empty history the watermark is seeded 0; a
local send then inserts and renders the message with id 1, but the
watermark stays 0, not `max(0, 1) = 1`, so immediately after the send the
watermark is below the id of a rendered message. -/
theorem watermark_not_updated_on_send_cex :
    (runTrace "a" "b" ⟨[], 1⟩ [SEv.send "hi"]).2.pollerLast = 0 ∧
    1 ∈ (runTrace "a" "b" ⟨[], 1⟩ [SEv.send "hi"]).2.rendered ∧
    (runTrace "a" "b" ⟨[], 1⟩ [SEv.send "hi"]).2.pollerLast ≠ max 0 1 := by
  refine ⟨by decide, by decide, by decide⟩

/-- C2 (amended): the watermark is seeded with the running maximum of the
history ids (0 if empty) and is non-decreasing across every session
operation; each poller delivery sets it to `max(previous, id)`, so it stays
at or above every poller-delivered id and every history id — but the
local-send path, manual reload and clear leave it unchanged, so the id of a
just-sent (or manually reloaded) message can exceed it until the poller
observes that row. -/
theorem watermark_monotone_poller_only (u p : String) (db : DB)
    (es : List SEv) :
    (initSess db u p).pollerLast =
      (fetchAll db u p).foldl (fun a m => max a m.id) 0 ∧
    (∀ (st : DB × Sess) (e : SEv),
      st.2.pollerLast ≤ (stepEv u p st e).2.pollerLast) ∧
    (∀ (s : Sess) (m : Msg),
      (pollerDeliver s m).pollerLast = max s.pollerLast m.id) ∧
    (∀ (s : Sess) (mid : Nat), (sendRender s mid).pollerLast = s.pollerLast) ∧
    (∀ (d : DB) (s : Sess), (reloadS d u p s).pollerLast = s.pollerLast) ∧
    (∀ s : Sess, (sessClear s).pollerLast = s.pollerLast) ∧
    (∀ m : Msg, SEv.deliver m ∈ es →
      m.id ≤ (runTrace u p db es).2.pollerLast) ∧
    (∀ m ∈ fetchAll db u p, m.id ≤ (runTrace u p db es).2.pollerLast) := by
  refine ⟨rfl, stepEv_pollerLast_mono u p, pollerDeliver_pollerLast,
    sendRender_pollerLast, fun d s => reloadS_pollerLast d u p s,
    sessClear_pollerLast, fun m hm => foldl_stepEv_deliver_le u p es _ m hm,
    ?_⟩
  intro m hm
  refine Nat.le_trans ?_ (foldl_stepEv_pollerLast_mono u p es _)
  exact mem_le_foldl_max _ 0 m hm

theorem watermark_monotone_poller_only_witness :
    SEv.deliver ⟨1, "a", "b", "hi"⟩ ∈ [SEv.deliver ⟨1, "a", "b", "hi"⟩] ∧
    (1 : Nat) ≤ (runTrace "a" "b" ⟨[], 2⟩
      [SEv.deliver ⟨1, "a", "b", "hi"⟩]).2.pollerLast :=
  ⟨by decide,
   (watermark_monotone_poller_only "a" "b" ⟨[], 2⟩
     [SEv.deliver ⟨1, "a", "b", "hi"⟩]).2.2.2.2.2.2.1
     ⟨1, "a", "b", "hi"⟩ (by decide)⟩


/-! ## Clear-chat effects -/



theorem filter_not_filter {α : Type} (q : α → Bool) (l : List α) :
    (l.filter (fun a => !(q a))).filter q = [] := by
  induction l with
  | nil => rfl
  | cons a l ih => cases hq : q a <;> simp [hq, ih]

theorem filter_not_filter_and {α : Type} (q r : α → Bool) (l : List α) :
    (l.filter (fun a => !(q a))).filter (fun a => q a && r a) = [] := by
  induction l with
  | nil => rfl
  | cons a l ih => cases hq : q a <;> simp [hq, ih]

/-- C8: after a confirmed successful clear, (1) `displayed_ids` is emptied;
(2) every `get_chat_history_all`/`get_chat_history_since` call against the
post-clear store returns none of the deleted rows (it returns `[]` for the
conversation, and rows inserted later carry fresh ids distinct from every
deleted id); (3) the already-rendered transcript is untouched; and (4) an
in-flight poller cycle against the cleared store completes as a normal
empty cycle — it renders nothing, leaves the state unchanged, and the loop
keeps running. -/
theorem clear_chat_effects (db : DB) (u p : String) (s : Sess) (b : String)
    (h : DBwf db) :
    (sessClear s).displayed = [] ∧
    (sessClear s).rendered = s.rendered ∧
    fetchAll (clearChatBetween db u p) u p = [] ∧
    (∀ k, fetchSince (clearChatBetween db u p) u p k = []) ∧
    pollCycle (clearChatBetween db u p) u p s = s ∧
    (∀ m ∈ fetchAll (insertDB (clearChatBetween db u p) u p b) u p,
      m.id ∉ (fetchAll db u p).map Msg.id) := by
  have hall : fetchAll (clearChatBetween db u p) u p = [] :=
    filter_not_filter (convBetween u p) db.rows
  have hsince : ∀ k, fetchSince (clearChatBetween db u p) u p k = [] :=
    fun k => filter_not_filter_and (convBetween u p)
      (fun m => decide (k < m.id)) db.rows
  refine ⟨rfl, rfl, hall, hsince, ?_, ?_⟩
  · show (fetchSince (clearChatBetween db u p) u p s.pollerLast).foldl
      pollerDeliver s = s
    rw [hsince s.pollerLast]
    rfl
  · intro m hm
    have hconv : convBetween u p ⟨db.nextId, u, p, b⟩ = true := by
      simp [convBetween]
    have hall2 : List.filter (fun m => convBetween u p m)
        (List.filter (fun a => !convBetween u p a) db.rows) = [] :=
      filter_not_filter (convBetween u p) db.rows
    have hm' : m = ⟨db.nextId, u, p, b⟩ := by
      simp only [fetchAll, insertDB, clearChatBetween, List.filter_append] at hm
      rw [hall2] at hm
      simp [hconv] at hm
      exact hm
    subst hm'
    intro hmem
    rcases List.mem_map.mp hmem with ⟨m', hm'mem, hid⟩
    have hmr : m' ∈ db.rows := List.mem_of_mem_filter hm'mem
    have hlt := h.2 m' hmr
    have hid' : m'.id = db.nextId := hid
    omega

theorem clear_chat_effects_witness :
    DBwf ⟨[⟨1, "a", "b", "hi"⟩], 2⟩ ∧
    fetchAll (clearChatBetween ⟨[⟨1, "a", "b", "hi"⟩], 2⟩ "a" "b") "a" "b" =
      [] := by
  have hwf : DBwf ⟨[⟨1, "a", "b", "hi"⟩], 2⟩ := by
    constructor
    · simp
    · intro m hm; simp at hm; subst hm; decide
  exact ⟨hwf,
    (clear_chat_effects ⟨[⟨1, "a", "b", "hi"⟩], 2⟩ "a" "b" ⟨[1], [1], 1⟩ "x"
      hwf).2.2.1⟩


/-! ## Session-wide dedup invariant -/



/-- Dedup invariant of one session against the store: no id rendered twice,
`displayed_ids` and the rendered log agree as sets, and every rendered id
was assigned by the store (is below `nextId`). -/
def SessInv (db : DB) (s : Sess) : Prop :=
  s.rendered.Nodup ∧ (∀ i, i ∈ s.displayed ↔ i ∈ s.rendered) ∧
    ∀ i ∈ s.rendered, i < db.nextId

theorem SessInv_onNewS (db : DB) (s : Sess) (i : Nat) (hinv : SessInv db s)
    (hi : i < db.nextId) : SessInv db (onNewS s i) := by
  obtain ⟨hnd, hiff, hlt⟩ := hinv
  unfold onNewS
  by_cases hm : i ∈ s.displayed
  · rw [if_pos hm]; exact ⟨hnd, hiff, hlt⟩
  · rw [if_neg hm]
    have hnr : i ∉ s.rendered := fun hc => hm ((hiff i).mpr hc)
    refine ⟨?_, ?_, ?_⟩
    · simp [List.nodup_append, hnd, hnr]
    · intro j
      have hj := hiff j
      simp only [List.mem_cons, List.mem_append, List.not_mem_nil, or_false]
      tauto
    · intro j hj
      rcases List.mem_append.mp hj with hj' | hj'
      · exact hlt j hj'
      · rw [List.mem_singleton.mp hj']; exact hi

theorem SessInv_pollerAdvance (db : DB) (s : Sess) (i : Nat)
    (hinv : SessInv db s) : SessInv db (pollerAdvance s i) := by
  unfold pollerAdvance
  split
  · exact hinv
  · exact hinv

theorem SessInv_foldl_onNew (db : DB) (rows : List Msg) :
    ∀ s : Sess, SessInv db s → (∀ m ∈ rows, m.id < db.nextId) →
      SessInv db (rows.foldl (fun st m => onNewS st m.id) s) := by
  induction rows with
  | nil => intro s h _; exact h
  | cons m ms ih =>
      intro s h hlt
      rw [List.foldl_cons]
      exact ih _ (SessInv_onNewS db s m.id h (hlt m (List.mem_cons_self _ _)))
        (fun m' hm' => hlt m' (List.mem_cons_of_mem _ hm'))

theorem DBwf_insert (db : DB) (u p : String) (b : String) (h : DBwf db) :
    DBwf (insertDB db u p b) := by
  obtain ⟨hpw, hlt⟩ := h
  constructor
  · rw [show (insertDB db u p b).rows = db.rows ++ [⟨db.nextId, u, p, b⟩]
      from rfl, List.map_append]
    rw [List.pairwise_append]
    refine ⟨hpw, List.pairwise_singleton _ _, ?_⟩
    intro a ha c hc
    rcases List.mem_map.mp ha with ⟨m, hm, rfl⟩
    rw [List.mem_singleton.mp hc]
    exact hlt m hm
  · intro m hm
    rcases List.mem_append.mp hm with hm' | hm'
    · exact Nat.lt_trans (hlt m hm') (Nat.lt_succ_self _)
    · rw [List.mem_singleton.mp hm']
      exact Nat.lt_succ_self _

theorem SessInv_send (db : DB) (u p b : String) (s : Sess)
    (hinv : SessInv db s) : SessInv (insertDB db u p b) (sendRender s db.nextId) := by
  obtain ⟨hnd, hiff, hlt⟩ := hinv
  have hnr : db.nextId ∉ s.rendered := fun hc =>
    Nat.lt_irrefl _ (hlt _ hc)
  refine ⟨?_, ?_, ?_⟩
  · simp [sendRender, List.nodup_append, hnd, hnr]
  · intro j
    have hj := hiff j
    simp only [sendRender, List.mem_cons, List.mem_append, List.not_mem_nil,
      or_false]
    tauto
  · intro j hj
    rcases List.mem_append.mp hj with hj' | hj'
    · exact Nat.lt_trans (hlt j hj') (Nat.lt_succ_self _)
    · rw [List.mem_singleton.mp hj']
      exact Nat.lt_succ_self _

theorem fetchAll_map_id_nodup (db : DB) (u p : String) (h : DBwf db) :
    ((fetchAll db u p).map Msg.id).Nodup := by
  have hsub : List.Sublist (fetchAll db u p) db.rows := List.filter_sublist _
  have hpw : List.Pairwise (· < ·) ((fetchAll db u p).map Msg.id) :=
    List.Pairwise.sublist (List.Sublist.map Msg.id hsub) h.1
  exact hpw.imp Nat.ne_of_lt

theorem SessInv_init (db : DB) (u p : String) (h : DBwf db) :
    SessInv db (initSess db u p) := by
  refine ⟨fetchAll_map_id_nodup db u p h, fun i => Iff.rfl, ?_⟩
  intro i hi
  rcases List.mem_map.mp hi with ⟨m, hm, rfl⟩
  exact h.2 m (List.mem_of_mem_filter hm)



theorem pollerAdvance_displayed (s : Sess) (i : Nat) :
    (pollerAdvance s i).displayed = s.displayed := by
  unfold pollerAdvance; split <;> rfl

theorem pollerAdvance_rendered (s : Sess) (i : Nat) :
    (pollerAdvance s i).rendered = s.rendered := by
  unfold pollerAdvance; split <;> rfl

theorem onNewS_rendered_mono (s : Sess) (i j : Nat) (h : j ∈ s.rendered) :
    j ∈ (onNewS s i).rendered := by
  unfold onNewS; split
  · exact h
  · exact List.mem_append_left _ h

theorem foldl_onNew_rendered_mono (rows : List Msg) :
    ∀ (s : Sess) (j : Nat), j ∈ s.rendered →
      j ∈ (rows.foldl (fun st m => onNewS st m.id) s).rendered := by
  induction rows with
  | nil => intro s j h; exact h
  | cons m ms ih =>
      intro s j h
      rw [List.foldl_cons]
      exact ih _ j (onNewS_rendered_mono s m.id j h)

theorem stepEv_rendered_mono (u p : String) (st : DB × Sess) (e : SEv)
    (j : Nat) (h : j ∈ st.2.rendered) : j ∈ (stepEv u p st e).2.rendered := by
  rcases st with ⟨db, s⟩
  cases e with
  | deliver m =>
      show j ∈ (pollerDeliver s m).rendered
      refine onNewS_rendered_mono _ m.id j ?_
      rw [pollerAdvance_rendered]
      exact h
  | reload =>
      show j ∈ (reloadS db u p s).rendered
      exact foldl_onNew_rendered_mono _ s j h
  | send b =>
      show j ∈ (sendRender s db.nextId).rendered
      exact List.mem_append_left _ h

theorem foldl_stepEv_rendered_mono (u p : String) (es : List SEv) :
    ∀ (st : DB × Sess) (j : Nat), j ∈ st.2.rendered →
      j ∈ ((es.foldl (stepEv u p) st)).2.rendered := by
  induction es with
  | nil => intro st j h; exact h
  | cons e es ih =>
      intro st j h
      rw [List.foldl_cons]
      exact ih _ j (stepEv_rendered_mono u p st e j h)

theorem pollerDeliver_mem_rendered (db : DB) (s : Sess) (m : Msg)
    (hinv : SessInv db s) : m.id ∈ (pollerDeliver s m).rendered := by
  unfold pollerDeliver onNewS
  split
  · next hmem =>
      rw [pollerAdvance_rendered]
      rw [pollerAdvance_displayed] at hmem
      exact (hinv.2.1 m.id).mp hmem
  · simp

theorem trace_inv_main (u p : String) (es : List SEv) :
    ∀ (db : DB) (s : Sess), SessInv db s → DBwf db →
      wfTraceB u p db es = true →
      SessInv (es.foldl (stepEv u p) (db, s)).1
        (es.foldl (stepEv u p) (db, s)).2 ∧
      DBwf (es.foldl (stepEv u p) (db, s)).1 ∧
      (∀ m : Msg, SEv.deliver m ∈ es →
        m.id ∈ (es.foldl (stepEv u p) (db, s)).2.rendered) := by
  induction es with
  | nil =>
      intro db s h1 h2 _
      exact ⟨h1, h2, fun m hm => absurd hm (List.not_mem_nil _)⟩
  | cons e es ih =>
      intro db s h1 h2 hwf
      cases e with
      | deliver m =>
          simp only [wfTraceB, Bool.and_eq_true, decide_eq_true_eq] at hwf
          obtain ⟨hm, hwf'⟩ := hwf
          rw [List.foldl_cons,
            show stepEv u p (db, s) (SEv.deliver m) = (db, pollerDeliver s m)
              from rfl]
          have hinv' : SessInv db (pollerDeliver s m) :=
            SessInv_onNewS db (pollerAdvance s m.id) m.id
              (SessInv_pollerAdvance db s m.id h1) (h2.2 m hm)
          obtain ⟨i1, i2, i3⟩ := ih db (pollerDeliver s m) hinv' h2 hwf'
          refine ⟨i1, i2, ?_⟩
          intro m' hm'
          rcases List.mem_cons.mp hm' with he | hes
          · injection he with hmm
            subst hmm
            exact foldl_stepEv_rendered_mono u p es _ _
              (pollerDeliver_mem_rendered db s m' h1)
          · exact i3 m' hes
      | reload =>
          rw [show wfTraceB u p db (SEv.reload :: es) = wfTraceB u p db es
            from rfl] at hwf
          rw [List.foldl_cons,
            show stepEv u p (db, s) SEv.reload = (db, reloadS db u p s)
              from rfl]
          have hinv' : SessInv db (reloadS db u p s) := by
            refine SessInv_foldl_onNew db _ s h1 ?_
            intro m' hm'
            exact h2.2 m' (List.mem_of_mem_filter hm')
          obtain ⟨i1, i2, i3⟩ := ih db (reloadS db u p s) hinv' h2 hwf
          refine ⟨i1, i2, ?_⟩
          intro m' hm'
          rcases List.mem_cons.mp hm' with he | hes
          · exact absurd he (by intro hc; exact SEv.noConfusion hc)
          · exact i3 m' hes
      | send b =>
          rw [show wfTraceB u p db (SEv.send b :: es) =
            wfTraceB u p (insertDB db u p b) es from rfl] at hwf
          rw [List.foldl_cons,
            show stepEv u p (db, s) (SEv.send b) =
              (insertDB db u p b, sendRender s db.nextId) from rfl]
          have hinv' : SessInv (insertDB db u p b) (sendRender s db.nextId) :=
            SessInv_send db u p b s h1
          obtain ⟨i1, i2, i3⟩ := ih (insertDB db u p b) (sendRender s db.nextId)
            hinv' (DBwf_insert db u p b h2) hwf
          refine ⟨i1, i2, ?_⟩
          intro m' hm'
          rcases List.mem_cons.mp hm' with he | hes
          · exact absurd he (by intro hc; exact SEv.noConfusion hc)
          · exact i3 m' hes

/-- C1: over every interleaving of poller deliveries (single `on_new`
invocations of rows present in the store), manual reloads and local sends
within one session, each distinct message id is rendered at most once (the
render log has no duplicates), every delivered message id ends up rendered
(at least once), and so does every history row rendered at session open:
the `displayed_ids` membership test plus insertion enforces at-most-once
across both the poller and the send/reload paths. -/
theorem render_dedup_per_session (u p : String) (db : DB) (es : List SEv)
    (hdb : DBwf db) (hes : wfTraceB u p db es = true) :
    (runTrace u p db es).2.rendered.Nodup ∧
    (∀ m : Msg, SEv.deliver m ∈ es →
      m.id ∈ (runTrace u p db es).2.rendered) ∧
    (∀ m ∈ fetchAll db u p, m.id ∈ (runTrace u p db es).2.rendered) := by
  obtain ⟨i1, i2, i3⟩ := trace_inv_main u p es db (initSess db u p)
    (SessInv_init db u p hdb) hdb hes
  refine ⟨i1.1, i3, ?_⟩
  intro m hm
  refine foldl_stepEv_rendered_mono u p es _ _ ?_
  exact List.mem_map_of_mem Msg.id hm

theorem render_dedup_per_session_witness :
    (DBwf ⟨[⟨1, "a", "b", "hi"⟩], 2⟩ ∧
      wfTraceB "a" "b" ⟨[⟨1, "a", "b", "hi"⟩], 2⟩
        [SEv.deliver ⟨1, "a", "b", "hi"⟩, SEv.send "x", SEv.reload] = true) ∧
    (runTrace "a" "b" ⟨[⟨1, "a", "b", "hi"⟩], 2⟩
      [SEv.deliver ⟨1, "a", "b", "hi"⟩, SEv.send "x",
        SEv.reload]).2.rendered.Nodup := by
  have hwf : DBwf ⟨[⟨1, "a", "b", "hi"⟩], 2⟩ := by
    constructor
    · simp
    · intro m hm; simp at hm; subst hm; decide
  exact ⟨⟨hwf, by decide⟩,
    (render_dedup_per_session "a" "b" ⟨[⟨1, "a", "b", "hi"⟩], 2⟩
      [SEv.deliver ⟨1, "a", "b", "hi"⟩, SEv.send "x", SEv.reload] hwf
      (by decide)).1⟩


end AGCatapult
